import Mathlib

/-!
Verification of the caller-memory subsystem of the `siphon` repository.

Python strings are modelled as `List Char`; Python `datetime` values as `Int`
timestamps in seconds (so `timedelta(days = d)` is `d * 86400` seconds); the
Python `dict` (insertion-ordered, unique keys) as a `List` of entries under
`dictInsert`; and `sorted(xs, key = lambda f: f.importance, reverse = True)` as
the stable insertion sort from Mathlib with the relation
`b.importance ≤ a.importance` — Python's sort is stable, and a stable sort
producing a descending run with ties in original order is unique, so the two
agree on every input.
-/

namespace Siphon

/-- Convert a Lean string literal to the `List Char` model of a Python `str`. -/
def chars (s : String) : List Char :=
  s.toList

/-- Whitespace characters stripped by Python's `str.strip()`. -/
def isPyWS (c : Char) : Bool :=
  c = ' ' || c = '\t' || c = '\n' || c = '\x0d' || c = '\x0b' || c = '\x0c'

/-- Python `str.strip()`: drop whitespace from both ends. -/
def pyStrip (l : List Char) : List Char :=
  ((l.dropWhile isPyWS).reverse.dropWhile isPyWS).reverse

/-- Python `str.upper()` (per-character, as for the ASCII role names used here). -/
def pyUpper (l : List Char) : List Char :=
  l.map Char.toUpper

/-- Helper for `pyTitle`: `prevAlpha` records whether the previous character was
alphabetic (Python capitalises a letter exactly when the previous character is
not cased). -/
def titleGo (prevAlpha : Bool) : List Char → List Char
  | [] => []
  | c :: cs =>
    (if c.isAlpha then (if prevAlpha then c.toLower else c.toUpper) else c) ::
      titleGo c.isAlpha cs

/-- Python `str.title()` restricted to the alphabetic/ASCII keys this code uses. -/
def pyTitle (l : List Char) : List Char :=
  titleGo false l

/-- Python `"\n".join(lines)`. -/
def joinNL : List (List Char) → List Char
  | [] => []
  | [l] => l
  | l :: ls => l ++ '\n' :: joinNL ls

/-- Python's `needle in haystack` substring test. -/
def containsSub (needle : List Char) : List Char → Bool
  | [] => needle.isEmpty
  | c :: cs => needle.isPrefixOf (c :: cs) || containsSub needle cs

/-! ## Data model (`siphon/memory/models.py`) -/

/-- Model of `Fact` from `models.py`: one extracted fact about a caller. -/
structure Fact where
  key : List Char
  value : List Char
  importance : Int
  extracted_at : Int
  source : Option (List Char)
deriving DecidableEq, Repr

/-- Model of `CallerMemory` from `models.py`: the persisted record for one phone number. -/
structure CallerMemory where
  phone_number : List Char
  first_call_date : Int
  last_call_date : Int
  call_count : Nat
  facts : List Fact
deriving DecidableEq, Repr

/-- Model of `ExtractionResult` from `models.py`. -/
structure ExtractionResult where
  facts : List Fact := []
  raw_response : Option (List Char) := none
  success : Bool := false
  error_message : Option (List Char) := none
deriving DecidableEq, Repr

/-- Model of `MemoryContext` from `models.py`: the rendered view produced by the enricher. -/
structure MemoryContext where
  has_history : Bool := false
  call_count : Nat := 0
  last_call_date : Option (List Char) := none
  formatted_facts : List Char := []
  full_context : List Char := []
deriving DecidableEq, Repr

/-! ## Merge policy (`MemoryService._merge_facts`, `service.py` lines 204-218) -/

/-- One step of `fact_map[fact.key] = fact` on a Python dict modelled as an
insertion-ordered entry list: replace in place when the key is present,
append otherwise. -/
def dictInsert (acc : List Fact) (f : Fact) : List Fact :=
  if acc.any (fun g => decide (g.key = f.key)) then
    acc.map (fun g => if g.key = f.key then f else g)
  else
    acc ++ [f]

/-- The dict built by `_merge_facts`: insert `existing` first, then overwrite
with `new`; the result models `fact_map.values()` in insertion order. -/
def factMapOf (existing newFacts : List Fact) : List Fact :=
  List.foldl dictInsert (List.foldl dictInsert [] existing) newFacts

/-- The comparison used by `sorted(..., key = lambda f: f.importance, reverse = True)`:
`a` precedes (or stays before) `b` when `a.importance ≥ b.importance`. -/
def factGE (a b : Fact) : Prop :=
  b.importance ≤ a.importance

instance : DecidableRel factGE := fun a b => Int.decLe b.importance a.importance

instance : IsTotal Fact factGE :=
  ⟨fun a b => (Int.le_total b.importance a.importance).imp id id⟩

instance : IsTrans Fact factGE :=
  ⟨fun _ _ _ hab hbc => le_trans hbc hab⟩

/-- Model of `sorted(fact_map.values(), key = lambda f: f.importance, reverse = True)`:
the stable descending sort by importance. -/
def sortFacts (l : List Fact) : List Fact :=
  List.insertionSort factGE l

/-- Model of `MemoryService._merge_facts`: build the key map, sort by importance
descending, keep at most 15 facts. -/
def mergeFacts (existing newFacts : List Fact) : List Fact :=
  (sortFacts (factMapOf existing newFacts)).take 15

/-- The keys of a fact list, in order. -/
def keysOf (l : List Fact) : List (List Char) :=
  l.map Fact.key

/-- The last entry of `l` whose key is `k` — the one a Python dict retains
after inserting `l` in order. -/
def findLastWithKey (k : List Char) : List Fact → Option Fact
  | [] => none
  | f :: fs =>
    match findLastWithKey k fs with
    | some g => some g
    | none => if f.key = k then some f else none

/-! ## TTL filter (`MemoryService._filter_expired_facts`, `service.py` lines 220-233)

`cutoff = datetime.utcnow() - timedelta(days=ttl_days)` becomes
`now - ttlDays * 86400` seconds.  The Python guard `if fact.extracted_at and ...`
is the truthiness of a `datetime`, which is always true, so only the
comparison `fact.extracted_at >= cutoff` remains. -/

def filterExpiredFacts (facts : List Fact) (ttlDays : Int) (now : Int) : List Fact :=
  if ttlDays ≤ 0 then facts
  else facts.filter (fun f => decide (now - ttlDays * 86400 ≤ f.extracted_at))

/-! ## Memory service (`MemoryService.load` / `MemoryService.save`, `service.py`)

The storage backend and the fact extractor are external effects awaited by the
service; one `save` call observes one outcome of each, modelled as `Except`
values (`.error` = the awaited call raised).  `SaveEnv.saveOutcome` is the
outcome of `self._store.save`, `SaveEnv.getOutcome` of `self._store.get`, and
`SaveEnv.extractOutcome` of `extractor.extract` inside `_extract_facts`. -/

structure SaveEnv where
  getOutcome : Except (List Char) (Option CallerMemory)
  extractOutcome : Except (List Char) ExtractionResult
  saveOutcome : Except (List Char) Unit

/-- Model of `MemoryService._extract_facts` (`service.py` lines 182-202): returns the
extracted facts on success, `[]` when the result is unsuccessful, and `[]`
when the awaited extraction raised (the inner `try/except`). -/
def extractFactsSrv (env : SaveEnv) : List Fact :=
  match env.extractOutcome with
  | .error _ => []
  | .ok r => if r.success then r.facts else []

/-- Python `phone_number or self._phone_number` on optional strings: the empty
string is falsy. -/
def pyOrStr (a b : Option (List Char)) : Option (List Char) :=
  match a with
  | some s => if s = [] then b else some s
  | none => b

/-- A message of `conversation_history`: a dict with `role` and `content`.
A missing `content` key is Python's `msg.get('content', '')`, i.e. `[]`;
a missing `role` key yields a value that is simply not `"user"`. -/
structure Msg where
  role : List Char
  content : List Char
deriving DecidableEq, Repr

/-- The `new_facts` computed by `save` (`service.py` lines 126-128): facts are
extracted only when `conversation_history` is truthy (non-empty) and an `llm`
was passed. -/
def saveNewFacts (history : List Msg) (hasLLM : Bool) (env : SaveEnv) : List Fact :=
  if history ≠ [] ∧ hasLLM then extractFactsSrv env else []

/-- The `try:` body of `MemoryService.save` (`service.py` lines 115-146), with
each awaited effect read from `env`; `.error` propagates to the enclosing
`except`.  `now` models the `datetime.utcnow()` calls made during this save
(they also provide the defaults of a freshly created `CallerMemory`).
On success returns the record written by `self._store.save`. -/
def saveBody (phone : List Char) (history : List Msg) (hasLLM : Bool)
    (env : SaveEnv) (now : Int) : Except (List Char) CallerMemory :=
  match env.getOutcome with
  | .error e => .error e
  | .ok got =>
    let existing := got.getD
      { phone_number := phone, first_call_date := now, last_call_date := now,
        call_count := 0, facts := [] }
    let merged := mergeFacts existing.facts (saveNewFacts history hasLLM env)
    let memory : CallerMemory :=
      { phone_number := phone
        first_call_date := existing.first_call_date
        last_call_date := now
        call_count := existing.call_count + 1
        facts := merged }
    match env.saveOutcome with
    | .error e => .error e
    | .ok _ => .ok memory

/-- Model of `MemoryService.save` (`service.py` lines 88-150).  The first component is
the returned boolean; the second is the record written to the store when the
write succeeded (`none` when nothing was durably written). -/
def saveModel (enabled : Bool) (phoneArg selfPhone : Option (List Char))
    (history : List Msg) (hasLLM : Bool) (env : SaveEnv) (now : Int) :
    Bool × Option CallerMemory :=
  if !enabled then (false, none)
  else
    match pyOrStr phoneArg selfPhone with
    | none => (false, none)
    | some phone =>
      if phone = [] then (false, none)
      else
        match saveBody phone history hasLLM env now with
        | .error _ => (false, none)
        | .ok memory => (true, some memory)

/-- Model of `MemoryService.load` (`service.py` lines 58-86): get the record, filter
expired facts with the default 90-day TTL, swallow any storage error. -/
def loadModel (enabled : Bool) (phoneArg selfPhone : Option (List Char))
    (getOutcome : Except (List Char) (Option CallerMemory)) (now : Int) :
    Option CallerMemory :=
  if !enabled then none
  else
    match pyOrStr phoneArg selfPhone with
    | none => none
    | some phone =>
      if phone = [] then none
      else
        match getOutcome with
        | .error _ => none
        | .ok none => none
        | .ok (some memory) =>
          some { memory with facts := filterExpiredFacts memory.facts 90 now }

/-! ## LLM fact extractor (`LLMFactExtractor.extract`, `llm_extractor.py`)

`_extract_with_llm` never raises (both provider paths catch internally) and
returns the provider's text or `None`; it is modelled as a function from the
attempt number to that optional text.  `_parse_and_validate` is the
JSON/Pydantic pipeline; its outcome on a given raw text is modelled as an
abstract function into `Except` (`.error` = it raised `JSONDecodeError`,
`ValidationError`, or any other exception caught by the retry loop). -/

structure ExtractEnv where
  llm : Nat → Option (List Char)
  parse : List Char → Except (List Char) (List Fact)

/-- Model of `FactExtractor._format_conversation` (`extraction/base.py` lines 27-35). -/
def formatConversation (history : List Msg) : List Char :=
  joinNL (history.filterMap fun m =>
    if m.content = [] then none
    else some (pyUpper m.role ++ chars ": " ++ m.content))

/-- The `has_user_content` check of `extract` (`llm_extractor.py` lines 68-71). -/
def hasUserContent (history : List Msg) : Bool :=
  history.any fun m =>
    decide (m.role = chars "user") && !(pyStrip m.content).isEmpty

/-- The `ExtractionResult(success=True)` early returns of `extract`. -/
def emptySuccess : ExtractionResult :=
  { facts := [], raw_response := none, success := true, error_message := none }

/-- The `for attempt in range(1, self.max_retries + 1)` loop of `extract`
(`llm_extractor.py` lines 88-155), instrumented with the number of LLM
invocations performed (the second component).  `fuel` is the number of
attempts remaining; when it reaches zero the loop has exhausted
`max_retries` attempts and returns the failure result. -/
def extractLoop (env : ExtractEnv) :
    Nat → Nat → Option (List Char) → Nat → ExtractionResult × Nat
  | 0, _, lastErr, count =>
    ({ facts := [], raw_response := none, success := false,
       error_message := lastErr }, count)
  | fuel + 1, attempt, _lastErr, count =>
    match env.llm attempt with
    | none =>
      extractLoop env fuel (attempt + 1)
        (some (chars "Empty response from LLM")) (count + 1)
    | some s =>
      if s = [] then
        extractLoop env fuel (attempt + 1)
          (some (chars "Empty response from LLM")) (count + 1)
      else
        match env.parse s with
        | .ok facts =>
          ({ facts := facts, raw_response := some s, success := true,
             error_message := none }, count + 1)
        | .error e => extractLoop env fuel (attempt + 1) (some e) (count + 1)

/-- Model of `LLMFactExtractor.extract` (`llm_extractor.py` lines 50-155), returning the
extraction result together with the number of LLM invocations made. -/
def extractModel (env : ExtractEnv) (maxRetries : Nat) (history : List Msg) :
    ExtractionResult × Nat :=
  if history = [] then (emptySuccess, 0)
  else if !hasUserContent history then (emptySuccess, 0)
  else if pyStrip (formatConversation history) = [] then (emptySuccess, 0)
  else extractLoop env maxRetries 1 none 0

/-! ## Enricher (`MemoryEnricher.format`, `enrichment.py` lines 18-131)

`last_call_str` is the output of `strftime` (or `""` when it raised); the
calendar rendering itself is outside the model, so the string is passed in. -/

def SUMMARY_KEYS : List (List Char) :=
  [chars "call_summary", chars "conversation_summary"]

def ACTION_KEYS : List (List Char) :=
  [chars "next_action", chars "follow_up_needed", chars "incomplete_task"]

def PERSONAL_KEYS : List (List Char) :=
  [chars "user_name", chars "contact_number", chars "email"]

/-- Python `'appointment' in f.key or 'schedule' in f.key`. -/
def isApptKey (k : List Char) : Bool :=
  containsSub (chars "appointment") k || containsSub (chars "schedule") k

def summaryFactsOf (top : List Fact) : List Fact :=
  top.filter fun f => decide (f.key ∈ SUMMARY_KEYS)

def actionFactsOf (top : List Fact) : List Fact :=
  top.filter fun f => decide (f.key ∈ ACTION_KEYS)

def personalFactsOf (top : List Fact) : List Fact :=
  top.filter fun f => decide (f.key ∈ PERSONAL_KEYS)

def apptFactsOf (top : List Fact) : List Fact :=
  top.filter fun f => isApptKey f.key

def otherFactsOf (top : List Fact) : List Fact :=
  top.filter fun f =>
    !decide (f.key ∈ SUMMARY_KEYS ++ ACTION_KEYS ++ PERSONAL_KEYS) &&
      !isApptKey f.key

/-- Python `fact.key.replace("_", " ").title()`. -/
def keyDisplay (k : List Char) : List Char :=
  pyTitle (k.map fun c => if c = '_' then ' ' else c)

/-- The per-value truncation of the OTHER KEY DETAILS bucket
(`enrichment.py` lines 109-111): `value[:97] + "..."` when `len(value) > 100`. -/
def truncateValue (v : List Char) : List Char :=
  if 100 < v.length then v.take 97 ++ chars "..." else v

/-- A SUMMARY line: `f"  {fact.value}"` (`enrichment.py` line 76). -/
def summaryLine (f : Fact) : List Char :=
  chars "  " ++ f.value

/-- A bullet line of the NEXT ACTIONS, PERSONAL INFO and APPOINTMENTS buckets
(`enrichment.py` lines 84, 92, 100): the full value, untruncated. -/
def bulletLine (f : Fact) : List Char :=
  chars "  • " ++ keyDisplay f.key ++ chars ": " ++ f.value

/-- An OTHER KEY DETAILS line (`enrichment.py` line 112): the truncated value. -/
def otherLine (f : Fact) : List Char :=
  chars "  • " ++ keyDisplay f.key ++ chars ": " ++ truncateValue f.value

/-- One `if <bucket>:` section: header, capped lines, blank line. -/
def bucketSection (header : List Char) (facts : List Fact) (cap : Nat)
    (line : Fact → List Char) : List (List Char) :=
  if facts = [] then [] else header :: (facts.take cap).map line ++ [[]]

/-- The `call_count > 1` lines (`enrichment.py` lines 65-70). -/
def calledLines (count : Nat) (lastCallStr : List Char) : List (List Char) :=
  if 1 < count then
    (if lastCallStr ≠ [] then
      [chars "This user has called " ++ chars (toString count) ++
        chars " times previously. Last call was on " ++ lastCallStr ++ chars "."]
    else
      [chars "This user has called " ++ chars (toString count) ++
        chars " times previously."]) ++ [[]]
  else []

/-- The `sections` list built by `format` (`enrichment.py` lines 58-113). -/
def sectionLines (maxInPrompt : Nat) (m : CallerMemory) (lastCallStr : List Char) :
    List (List Char) :=
  let top := (sortFacts m.facts).take maxInPrompt
  [chars "---", chars "Previous Conversation Context:", []] ++
    calledLines m.call_count lastCallStr ++
    bucketSection (chars "SUMMARY:") (summaryFactsOf top) 2 summaryLine ++
    bucketSection (chars "NEXT ACTIONS / FOLLOW-UPS:") (actionFactsOf top) 3 bulletLine ++
    bucketSection (chars "PERSONAL INFO:") (personalFactsOf top) 3 bulletLine ++
    bucketSection (chars "APPOINTMENTS:") (apptFactsOf top) 3 bulletLine ++
    bucketSection (chars "OTHER KEY DETAILS:") (otherFactsOf top) 5 otherLine

/-- Model of `MemoryEnricher.format` (`enrichment.py` lines 18-131); `maxInPrompt` is
`self.max_facts_in_prompt` (default 10). -/
def formatMemory (maxInPrompt : Nat) (memory : Option CallerMemory)
    (lastCallStr : List Char) : MemoryContext :=
  match memory with
  | none => {}
  | some m =>
    if m.call_count < 1 then {}
    else if m.facts = [] then {}
    else
      let top := (sortFacts m.facts).take maxInPrompt
      { has_history := true
        call_count := m.call_count
        last_call_date := some lastCallStr
        formatted_facts := joinNL ((top.take maxInPrompt).map fun f =>
          chars "- " ++ keyDisplay f.key ++ chars ": " ++ f.value)
        full_context := joinNL (sectionLines maxInPrompt m lastCallStr) }

/-! ## Local file store (`LocalMemoryStore`, `storage/local.py`)

The file system is an association list from path to the record last written
there (later writes shadow earlier ones); the JSON round-trip of
`save`/`get` is assumed faithful, which is all claim C10 needs. -/

/-- Model of the `LocalMemoryStore._get_file_path` sanitisation (`local.py` line 29):
`phone_number.lstrip("+").replace(" ", "_").replace("-", "_")`. -/
def sanitizePhone (phone : List Char) : List Char :=
  ((phone.dropWhile fun c => c = '+').map fun c => if c = ' ' then '_' else c).map
    fun c => if c = '-' then '_' else c

/-- Python path join of the base folder with the sanitised phone plus a `.json` suffix. -/
def localFilePath (baseFolder phone : List Char) : List Char :=
  baseFolder ++ '/' :: (sanitizePhone phone ++ chars ".json")

def LocalFS : Type :=
  List (List Char × CallerMemory)

def fsRead (fs : LocalFS) (path : List Char) : Option CallerMemory :=
  (fs.find? fun e => decide (e.1 = path)).map Prod.snd

/-- Model of `LocalMemoryStore.save`: write the record at the phone's path. -/
def localSave (fs : LocalFS) (baseFolder phone : List Char) (m : CallerMemory) :
    LocalFS :=
  (localFilePath baseFolder phone, m) :: fs

/-- Model of `LocalMemoryStore.get`: read whatever file the phone's path points to. -/
def localGet (fs : LocalFS) (baseFolder phone : List Char) : Option CallerMemory :=
  fsRead fs (localFilePath baseFolder phone)

/-! ## Concrete instances used by the claim theorems and witnesses -/

/-- The 16 distinct-key facts used to exhibit the truncation in `_merge_facts`. -/
def c1existing : List Fact :=
  (List.range 16).map fun i =>
    { key := chars ("k" ++ toString i), value := chars "v", importance := 10,
      extracted_at := 0, source := none }

def c1new : List Fact :=
  [{ key := chars "k0", value := chars "fresh", importance := 1,
     extracted_at := 1, source := none }]

/-- A small concrete existing fact list for the C1 witness. -/
def c1wExisting : List Fact :=
  [⟨chars "a", chars "alpha", 3, 0, none⟩, ⟨chars "b", chars "first", 7, 0, none⟩]

/-- A small concrete new fact list for the C1 witness. -/
def c1wNew : List Fact :=
  [⟨chars "b", chars "second longer", 9, 5, none⟩]

/-- A trivially successful environment for the C2 witness: no stored record,
extraction raises, the write succeeds. -/
def c2env : SaveEnv :=
  ⟨Except.ok none, Except.error (chars "boom"), Except.ok ()⟩

/-- The record used by the C5 witness: one fact exactly on the retention
boundary, one strictly older by a second. -/
def c5mem : CallerMemory :=
  ⟨chars "p", 0, 0, 3,
    [⟨chars "fresh_enough", chars "kept", 5, 10000000 - 90 * 86400, none⟩,
     ⟨chars "too_old", chars "dropped", 5, 10000000 - 90 * 86400 - 1, none⟩]⟩

/-- A fact far older than the 90-day retention window at `c9now`. -/
def c9fact : Fact :=
  ⟨chars "old_key", chars "stale value", 9, 0, none⟩

def c9now : Int :=
  100000000

/-- The stored record containing only the expired fact. -/
def c9mem : CallerMemory :=
  ⟨chars "p", 0, 50, 1, [c9fact]⟩

/-- Environment for the C9 counterexample: the store holds `c9mem`, and the
write succeeds. -/
def c9env : SaveEnv :=
  ⟨Except.ok (some c9mem), Except.ok ⟨[], none, true, none⟩, Except.ok ()⟩

/-- Model and history used by the C4 witness: the model always answers the same
unparsable text; the caller said something. -/
def c4env : ExtractEnv :=
  ⟨fun _ => some (chars "not json"), fun _ => Except.error (chars "parse failure")⟩

def c4hist : List Msg :=
  [⟨chars "user", chars "My name is Sam"⟩]

/-- History used by the C6 witness: the only user utterance is whitespace. -/
def c6hist : List Msg :=
  [⟨chars "assistant", chars "Hello, how can I help?"⟩, ⟨chars "user", chars "   "⟩]

def c6env : ExtractEnv :=
  ⟨fun _ => none, fun _ => Except.error []⟩

/-- A 101-character value, longer than the 100-character truncation limit. -/
def c8val : List Char :=
  List.replicate 101 'a'

/-- A record whose only fact is a summary fact with an over-long value. -/
def c8mem : CallerMemory :=
  ⟨chars "p", 0, 0, 1, [⟨chars "call_summary", c8val, 10, 0, none⟩]⟩

/-! ## Lemmas about the merge policy -/

theorem keysOf_append (l l' : List Fact) :
    keysOf (l ++ l') = keysOf l ++ keysOf l' :=
  List.map_append _ _ _

theorem mem_keysOf {k : List Char} {l : List Fact} :
    k ∈ keysOf l ↔ ∃ g ∈ l, g.key = k :=
  List.mem_map

theorem keysOf_cons (f : Fact) (l : List Fact) :
    keysOf (f :: l) = f.key :: keysOf l :=
  rfl

theorem any_key_eq (acc : List Fact) (f : Fact) :
    (acc.any fun g => decide (g.key = f.key)) = true ↔ f.key ∈ keysOf acc := by
  rw [List.any_eq_true]
  constructor
  · rintro ⟨g, hg, hgk⟩
    exact mem_keysOf.2 ⟨g, hg, of_decide_eq_true hgk⟩
  · intro h
    rcases mem_keysOf.1 h with ⟨g, hg, hgk⟩
    exact ⟨g, hg, decide_eq_true hgk⟩

theorem keysOf_dictInsert (acc : List Fact) (f : Fact) :
    keysOf (dictInsert acc f) =
      if f.key ∈ keysOf acc then keysOf acc else keysOf acc ++ [f.key] := by
  by_cases h : f.key ∈ keysOf acc
  · rw [if_pos h]
    unfold dictInsert
    rw [if_pos ((any_key_eq acc f).2 h)]
    unfold keysOf
    rw [List.map_map]
    exact List.map_congr_left fun g _ => by
      by_cases hk : g.key = f.key
      · rw [Function.comp_apply, if_pos hk]
        exact hk.symm
      · rw [Function.comp_apply, if_neg hk]
  · rw [if_neg h]
    unfold dictInsert
    rw [if_neg fun hc => h ((any_key_eq acc f).1 hc)]
    exact keysOf_append acc [f]

theorem nodup_keys_dictInsert {acc : List Fact} (h : (keysOf acc).Nodup) (f : Fact) :
    (keysOf (dictInsert acc f)).Nodup := by
  rw [keysOf_dictInsert]
  by_cases hm : f.key ∈ keysOf acc
  · rwa [if_pos hm]
  · rw [if_neg hm]
    exact List.Nodup.append h (List.nodup_singleton _)
      fun x hx hy => hm ((List.mem_singleton.1 hy) ▸ hx)

theorem nodup_keys_foldl :
    ∀ (l acc : List Fact), (keysOf acc).Nodup →
      (keysOf (List.foldl dictInsert acc l)).Nodup
  | [], _, h => h
  | f :: fs, acc, h => nodup_keys_foldl fs (dictInsert acc f) (nodup_keys_dictInsert h f)

theorem nodup_keys_factMapOf (E N : List Fact) : (keysOf (factMapOf E N)).Nodup :=
  nodup_keys_foldl N _ (nodup_keys_foldl E [] (by simp [keysOf]))

theorem findLastWithKey_eq_none {k : List Char} :
    ∀ {l : List Fact}, findLastWithKey k l = none ↔ k ∉ keysOf l
  | [] => by simp [findLastWithKey, keysOf]
  | g :: gs => by
    unfold findLastWithKey
    cases hgs : findLastWithKey k gs with
    | some g' =>
      have hmem : k ∈ keysOf gs := by
        by_contra hk
        rw [findLastWithKey_eq_none.2 hk] at hgs
        exact Option.noConfusion hgs
      simp [keysOf_cons, hmem]
    | none =>
      have hk : k ∉ keysOf gs := findLastWithKey_eq_none.1 hgs
      by_cases hgk : g.key = k
      · simp [hgk, keysOf_cons]
      · simp [hgk, keysOf_cons, hk, Ne.symm hgk]

theorem findLastWithKey_append_single (k : List Char) (y : Fact) :
    ∀ l, findLastWithKey k (l ++ [y]) =
      if y.key = k then some y else findLastWithKey k l
  | [] => by
    simp [findLastWithKey]
  | f :: fs => by
    show findLastWithKey k (f :: (fs ++ [y])) = _
    unfold findLastWithKey
    rw [findLastWithKey_append_single k y fs]
    by_cases hy : y.key = k
    · rw [if_pos hy, if_pos hy]
    · rw [if_neg hy, if_neg hy]

theorem mem_dictInsert {g : Fact} {acc : List Fact} {y : Fact}
    (h : g ∈ dictInsert acc y) : g = y ∨ (g ∈ acc ∧ g.key ≠ y.key) := by
  unfold dictInsert at h
  by_cases hc : (acc.any fun x => decide (x.key = y.key)) = true
  · rw [if_pos hc] at h
    rcases List.mem_map.1 h with ⟨g₀, hg₀, hrepl⟩
    by_cases hk : g₀.key = y.key
    · left; rw [← hrepl, if_pos hk]
    · right; rw [← hrepl, if_neg hk]; exact ⟨hg₀, hk⟩
  · rw [if_neg hc] at h
    rcases List.mem_append.1 h with hg | hg
    · exact Or.inr ⟨hg, fun hk =>
        hc (List.any_eq_true.2 ⟨g, hg, by simp [hk]⟩)⟩
    · exact Or.inl (List.mem_singleton.1 hg)

theorem entry_foldl {k : List Char} (l : List Fact) :
    ∀ (acc : List Fact) (g : Fact), g ∈ List.foldl dictInsert acc l → g.key = k →
      findLastWithKey k l = some g ∨ (findLastWithKey k l = none ∧ g ∈ acc) := by
  induction l using List.reverseRecOn with
  | nil => exact fun acc g hg _ => Or.inr ⟨rfl, hg⟩
  | append_singleton l y ih =>
    intro acc g hg hk
    rw [List.foldl_append, List.foldl_cons, List.foldl_nil] at hg
    rw [findLastWithKey_append_single]
    rcases mem_dictInsert hg with hgy | ⟨hgm, hgk⟩
    · subst hgy
      rw [if_pos hk]
      exact Or.inl rfl
    · have hy : ¬ y.key = k := fun hyk => hgk (hk.trans hyk.symm)
      rw [if_neg hy]
      exact ih acc g hgm hk

theorem keys_dictInsert_superset {k : List Char} {acc : List Fact} (f : Fact)
    (h : k ∈ keysOf acc) : k ∈ keysOf (dictInsert acc f) := by
  rw [keysOf_dictInsert]
  by_cases hm : f.key ∈ keysOf acc
  · rwa [if_pos hm]
  · rw [if_neg hm]; exact List.mem_append_left _ h

theorem keys_self_dictInsert (acc : List Fact) (f : Fact) :
    f.key ∈ keysOf (dictInsert acc f) := by
  rw [keysOf_dictInsert]
  by_cases hm : f.key ∈ keysOf acc
  · rwa [if_pos hm]
  · rw [if_neg hm]; exact List.mem_append_right _ (List.mem_singleton.2 rfl)

theorem keys_foldl_acc {k : List Char} :
    ∀ (l acc : List Fact), k ∈ keysOf acc → k ∈ keysOf (List.foldl dictInsert acc l)
  | [], _, h => h
  | f :: fs, _, h => keys_foldl_acc fs _ (keys_dictInsert_superset f h)

theorem keys_foldl_of_mem {k : List Char} :
    ∀ (l acc : List Fact), k ∈ keysOf l → k ∈ keysOf (List.foldl dictInsert acc l)
  | [], _, h => by simp [keysOf] at h
  | f :: fs, acc, h => by
    rcases (by simpa [keysOf_cons] using h : k = f.key ∨ k ∈ keysOf fs) with h | h
    · exact keys_foldl_acc fs _ (h ▸ keys_self_dictInsert acc f)
    · exact keys_foldl_of_mem fs _ h

theorem foldl_dictInsert_of_nodup :
    ∀ (l acc : List Fact), (keysOf (acc ++ l)).Nodup →
      List.foldl dictInsert acc l = acc ++ l
  | [], acc, _ => by simp
  | c :: cs, acc, h => by
    have hnd := h
    rw [keysOf_append, List.nodup_append] at hnd
    have hck : c.key ∉ keysOf acc := fun hmem =>
      hnd.2.2 hmem (by simp [keysOf_cons])
    have hstep : dictInsert acc c = acc ++ [c] := by
      unfold dictInsert
      rw [if_neg fun hc => hck ((any_key_eq acc c).1 hc)]
    have happ : (acc ++ [c]) ++ cs = acc ++ c :: cs := by simp
    rw [List.foldl_cons, hstep,
      foldl_dictInsert_of_nodup cs (acc ++ [c]) (by rw [happ]; exact h), happ]

theorem countP_key_le_one {k : List Char} :
    ∀ {l : List Fact}, (keysOf l).Nodup →
      (l.countP fun f => decide (f.key = k)) ≤ 1
  | [], _ => by simp
  | f :: fs, h => by
    rw [keysOf_cons, List.nodup_cons] at h
    rw [List.countP_cons]
    by_cases hk : f.key = k
    · have hz : (fs.countP fun g => decide (g.key = k)) = 0 :=
        List.countP_eq_zero.2 fun g hg hgk =>
          h.1 (mem_keysOf.2 ⟨g, hg, (of_decide_eq_true hgk).trans hk.symm⟩)
      simp [hz, hk]
    · have := countP_key_le_one (k := k) h.2
      simpa [hk] using this

theorem sortFacts_perm (l : List Fact) : (sortFacts l).Perm l :=
  List.perm_insertionSort _ _

theorem mem_sortFacts {l : List Fact} {f : Fact} : f ∈ sortFacts l ↔ f ∈ l :=
  List.mem_insertionSort _

theorem sortFacts_sorted (l : List Fact) : List.Sorted factGE (sortFacts l) :=
  List.sorted_insertionSort _ _

theorem mem_factMapOf_of_mergeFacts {E N : List Fact} {f : Fact}
    (h : f ∈ mergeFacts E N) : f ∈ factMapOf E N :=
  mem_sortFacts.1 (List.take_subset _ _ h)

/-! ## Claim C1 -/

/-- C1, counterexample: the key `k0` occurs in both input lists, yet the merged
list contains no fact with that key at all — the merged map has 16 entries and
the overwritten `k0` fact has the lowest importance, so the final `[:15]`
truncation drops it; the merged list does not contain exactly one fact with
that key. -/
theorem c1_counterexample :
    chars "k0" ∈ keysOf c1existing ∧ chars "k0" ∈ keysOf c1new ∧
      ((mergeFacts c1existing c1new).countP fun f => decide (f.key = chars "k0")) = 0 := by
  decide

/-- C1, amended: for a key present in both lists, the merged list contains at
most one fact with that key (uniqueness always holds), and any such fact is
exactly the last fact of `new` carrying that key, so its value is `new`'s
value; the importance-ranked 15-fact truncation may remove the key
entirely. -/
theorem c1_last_write_wins (existing newFacts : List Fact) (k : List Char)
    (hk : k ∈ keysOf newFacts) :
    ((mergeFacts existing newFacts).countP fun f => decide (f.key = k)) ≤ 1 ∧
    ∀ f ∈ mergeFacts existing newFacts, f.key = k →
      findLastWithKey k newFacts = some f := by
  constructor
  · calc ((mergeFacts existing newFacts).countP fun f => decide (f.key = k))
        ≤ ((sortFacts (factMapOf existing newFacts)).countP fun f => decide (f.key = k)) :=
          List.Sublist.countP_le _ (List.take_sublist _ _)
      _ = ((factMapOf existing newFacts).countP fun f => decide (f.key = k)) :=
          List.Perm.countP_eq _ (sortFacts_perm _)
      _ ≤ 1 := countP_key_le_one (nodup_keys_factMapOf existing newFacts)
  · intro f hf hfk
    have hfm : f ∈ factMapOf existing newFacts := mem_factMapOf_of_mergeFacts hf
    rcases entry_foldl newFacts _ f hfm hfk with h | ⟨hnone, _⟩
    · exact h
    · exact absurd hk (findLastWithKey_eq_none.1 hnone)

/-- Witness for `c1_last_write_wins` at a concrete input: key `b` occurs in
both lists, and the merged entry for `b` is the fact from `new`. -/
theorem c1_last_write_wins_witness :
    chars "b" ∈ keysOf c1wNew ∧
    (((mergeFacts c1wExisting c1wNew).countP fun f => decide (f.key = chars "b")) ≤ 1 ∧
      ∀ f ∈ mergeFacts c1wExisting c1wNew, f.key = chars "b" →
        findLastWithKey (chars "b") c1wNew = some f) :=
  ⟨by decide, c1_last_write_wins c1wExisting c1wNew (chars "b") (by decide)⟩

/-! ## Claim C7 -/

/-- C7: merging nothing into an already-merged list is a no-op: the merged
list has unique keys (so rebuilding the dict from it is the identity), is
already sorted by importance descending (so the stable sort leaves it alone),
and has length ≤ 15 (so the truncation keeps everything). -/
theorem c7_merge_empty_noop (A B : List Fact) :
    mergeFacts (mergeFacts A B) [] = mergeFacts A B := by
  have hnodC : (keysOf (mergeFacts A B)).Nodup := by
    have h1 : (keysOf (sortFacts (factMapOf A B))).Nodup :=
      (((sortFacts_perm (factMapOf A B)).map Fact.key).nodup_iff).2
        (nodup_keys_factMapOf A B)
    have h2 : keysOf (mergeFacts A B) =
        (keysOf (sortFacts (factMapOf A B))).take 15 :=
      List.map_take _ _ _
    rw [h2]
    exact List.Nodup.sublist (List.take_sublist _ _) h1
  have hfold : factMapOf (mergeFacts A B) [] = mergeFacts A B := by
    show List.foldl dictInsert (List.foldl dictInsert [] (mergeFacts A B)) [] = _
    rw [List.foldl_nil]
    simpa using foldl_dictInsert_of_nodup (mergeFacts A B) [] (by simpa using hnodC)
  have hsorted : List.Sorted factGE (mergeFacts A B) :=
    List.Pairwise.sublist (List.take_sublist _ _) (sortFacts_sorted (factMapOf A B))
  have hlen : (mergeFacts A B).length ≤ 15 := List.length_take_le _ _
  show (sortFacts (factMapOf (mergeFacts A B) [])).take 15 = mergeFacts A B
  rw [hfold]
  show (List.insertionSort factGE (mergeFacts A B)).take 15 = mergeFacts A B
  rw [List.Sorted.insertionSort_eq hsorted, List.take_of_length_le hlen]

/-! ## Normal form of `saveModel` -/

/-- Case-by-case normal form of `saveModel`, used by the service-level claims. -/
theorem saveModel_eq (enabled : Bool) (pa sp : Option (List Char)) (history : List Msg)
    (hasLLM : Bool) (env : SaveEnv) (now : Int) :
    saveModel enabled pa sp history hasLLM env now =
      (match enabled, pyOrStr pa sp with
      | false, _ => (false, none)
      | true, none => (false, none)
      | true, some phone =>
        if phone = [] then (false, none)
        else
          match env.getOutcome, env.saveOutcome with
          | .error _, _ => (false, none)
          | .ok _, .error _ => (false, none)
          | .ok got, .ok _ =>
            let existing := got.getD
              { phone_number := phone, first_call_date := now, last_call_date := now,
                call_count := 0, facts := [] }
            (true, some
              { phone_number := phone
                first_call_date := existing.first_call_date
                last_call_date := now
                call_count := existing.call_count + 1
                facts := mergeFacts existing.facts (saveNewFacts history hasLLM env) })) := by
  cases enabled with
  | false => rfl
  | true =>
    cases hps : pyOrStr pa sp with
    | none => simp [saveModel, hps]
    | some phone =>
      by_cases hp : phone = []
      · simp [saveModel, hps, hp]
      · cases hget : env.getOutcome with
        | error e => simp [saveModel, saveBody, hps, hp, hget]
        | ok got =>
          cases hsv : env.saveOutcome with
          | error e => simp [saveModel, saveBody, hps, hp, hget, hsv]
          | ok u => simp [saveModel, saveBody, hps, hp, hget, hsv]

/-! ## Claim C2 -/

/-- C2: whenever `save` returns `True`, the record it wrote has `call_count`
equal to the previously stored record's `call_count` plus one (one when no
record existed — the fresh `CallerMemory` starts at zero), and its
`last_call_date` is the save-time `now`; this holds for every extractor
outcome, including a raised extraction error or an unsuccessful result. -/
theorem c2_call_count_increment (enabled : Bool) (pa sp : Option (List Char))
    (history : List Msg) (hasLLM : Bool) (env : SaveEnv) (now : Int)
    (h : (saveModel enabled pa sp history hasLLM env now).fst = true) :
    ∃ m, (saveModel enabled pa sp history hasLLM env now).snd = some m ∧
      m.call_count = (match env.getOutcome with
        | .ok (some old) => old.call_count + 1
        | _ => 1) ∧
      m.last_call_date = now := by
  rw [saveModel_eq] at h ⊢
  cases enabled with
  | false => exact absurd h (by simp)
  | true =>
    cases hps : pyOrStr pa sp with
    | none => rw [hps] at h; exact absurd h (by simp)
    | some phone =>
      rw [hps] at h
      dsimp only at h ⊢
      by_cases hp : phone = []
      · rw [if_pos hp] at h; exact absurd h (by simp)
      · rw [if_neg hp] at h ⊢
        cases hget : env.getOutcome with
        | error e => rw [hget] at h; exact absurd h (by simp)
        | ok got =>
          rw [hget] at h
          cases hsv : env.saveOutcome with
          | error e => rw [hsv] at h; exact absurd h (by simp)
          | ok u =>
            cases got with
            | none => exact ⟨_, rfl, by simp, rfl⟩
            | some old => exact ⟨_, rfl, by simp, rfl⟩

/-- Witness for `c2_call_count_increment`: a concrete first-time save whose
written record has `call_count = 1` even though extraction raised. -/
theorem c2_call_count_increment_witness :
    (saveModel true (some (chars "p")) none [] true c2env 7).fst = true ∧
    ∃ m, (saveModel true (some (chars "p")) none [] true c2env 7).snd = some m ∧
      m.call_count = (match c2env.getOutcome with
        | .ok (some old) => old.call_count + 1
        | _ => 1) ∧
      m.last_call_date = 7 :=
  ⟨by decide, c2_call_count_increment true (some (chars "p")) none [] true c2env 7 (by decide)⟩

/-! ## Claim C3 -/

/-- C3: no storage or extraction error escapes `save`/`load` — both are total
functions into `Bool` and `Option`.  `save` returns `True` exactly when the
service is enabled, a non-empty phone number is available, and both storage
calls succeed; in particular an extraction error (modelled by
`env.extractOutcome = .error _`, quantified here over all environments) never
makes `save` fail, and a storage error surfaces only as `False`.  `load`
returns `None` when the storage read raises. -/
theorem c3_errors_become_sentinels (enabled : Bool) (pa sp : Option (List Char))
    (history : List Msg) (hasLLM : Bool) (env : SaveEnv) (now : Int) :
    ((saveModel enabled pa sp history hasLLM env now).fst = true ↔
      (enabled = true ∧ (∃ p, pyOrStr pa sp = some p ∧ p ≠ []) ∧
        env.getOutcome.isOk = true ∧ env.saveOutcome.isOk = true)) ∧
    ∀ e, loadModel enabled pa sp (Except.error e) now = none := by
  constructor
  · rw [saveModel_eq]
    cases enabled with
    | false => simp
    | true =>
      cases hps : pyOrStr pa sp with
      | none => simp
      | some phone =>
        dsimp only
        by_cases hp : phone = []
        · rw [if_pos hp]; simp [hp]
        · rw [if_neg hp]
          cases hget : env.getOutcome with
          | error e => simp [Except.isOk, Except.toBool, hp]
          | ok got =>
            cases hsv : env.saveOutcome with
            | error e => simp [Except.isOk, Except.toBool, hp]
            | ok u => simp [Except.isOk, Except.toBool, hp]
  · intro e
    unfold loadModel
    cases enabled with
    | false => rfl
    | true =>
      cases pyOrStr pa sp with
      | none => rfl
      | some phone =>
        by_cases hp : phone = []
        · simp [hp]
        · simp [hp]

/-- Witness for `c3_errors_become_sentinels` at a concrete input: with both
storage calls failing, `save` returns `False`; `load` returns `None` on a
failing read. -/
theorem c3_errors_become_sentinels_witness :
    (saveModel true (some (chars "p")) none [] true
      ⟨Except.error (chars "io"), Except.error (chars "x"), Except.error (chars "io")⟩ 0).fst
        = false ∧
    loadModel true (some (chars "p")) none (Except.error (chars "io")) 0 = none := by
  constructor
  · have h := (c3_errors_become_sentinels true (some (chars "p")) none [] true
      ⟨Except.error (chars "io"), Except.error (chars "x"), Except.error (chars "io")⟩ 0).1
    cases hb : (saveModel true (some (chars "p")) none [] true
      ⟨Except.error (chars "io"), Except.error (chars "x"), Except.error (chars "io")⟩ 0).fst
    · rfl
    · have := h.1 hb
      exact absurd this.2.2.1 (by decide)
  · exact (c3_errors_become_sentinels true (some (chars "p")) none [] true
      ⟨Except.error (chars "io"), Except.error (chars "x"), Except.error (chars "io")⟩ 0).2
      (chars "io")

/-! ## Claim C5 -/

/-- C5: the view returned by `load` keeps a fact exactly when
`extracted_at ≥ now - 90 days`: the boundary fact (`extracted_at` equal to
the cutoff) is retained, anything strictly older is dropped, and the filter
acts only on the returned view. -/
theorem c5_ttl_boundary_inclusive (pa sp : Option (List Char)) (mem : CallerMemory)
    (now : Int) (hphone : ∃ p, pyOrStr pa sp = some p ∧ p ≠ []) :
    loadModel true pa sp (Except.ok (some mem)) now =
      some { mem with facts := filterExpiredFacts mem.facts 90 now } ∧
    ∀ f, f ∈ filterExpiredFacts mem.facts 90 now ↔
      (f ∈ mem.facts ∧ now - 90 * 86400 ≤ f.extracted_at) := by
  obtain ⟨p, hp, hpne⟩ := hphone
  constructor
  · unfold loadModel
    rw [hp]
    simp [hpne]
  · intro f
    unfold filterExpiredFacts
    rw [if_neg (by norm_num)]
    simp [List.mem_filter]

/-- Witness for `c5_ttl_boundary_inclusive`: at `now = 10000000` the boundary
fact survives the load-time filter and the strictly older one is removed. -/
theorem c5_ttl_boundary_inclusive_witness :
    (∃ p, pyOrStr (some (chars "p")) none = some p ∧ p ≠ []) ∧
    (loadModel true (some (chars "p")) none (Except.ok (some c5mem)) 10000000 =
        some { c5mem with facts := filterExpiredFacts c5mem.facts 90 10000000 } ∧
      ∀ f, f ∈ filterExpiredFacts c5mem.facts 90 10000000 ↔
        (f ∈ c5mem.facts ∧ 10000000 - 90 * 86400 ≤ f.extracted_at)) ∧
    filterExpiredFacts c5mem.facts 90 10000000 =
      [⟨chars "fresh_enough", chars "kept", 5, 10000000 - 90 * 86400, none⟩] :=
  ⟨⟨chars "p", rfl, by decide⟩,
   c5_ttl_boundary_inclusive (some (chars "p")) none c5mem 10000000
     ⟨chars "p", rfl, by decide⟩,
   by decide⟩

/-! ## Claim C9 -/

/-- C9, counterexample: the stored record holds a fact strictly older than the
retention window, the save succeeds, yet the rewritten record still contains
that expired fact — `save` merges the raw stored facts without applying the
TTL filter. -/
theorem c9_counterexample :
    c9fact.extracted_at < c9now - 90 * 86400 ∧
    saveModel true (some (chars "p")) none [] false c9env c9now =
      (true, some ⟨chars "p", 0, c9now, 2, [c9fact]⟩) := by
  decide

/-- C9, amended: `save` does not filter expired facts: the rewritten record's
fact list is exactly `merge(existing.facts, new_facts)` over the raw stored
facts, so any stored fact — expired or not — survives the rewrite whenever its
key is not overwritten by a newly extracted fact and the merged map stays
within the 15-fact cap; the retention window is applied only to the view
returned by `load`. -/
theorem c9_expired_facts_persist (pa sp : Option (List Char)) (history : List Msg)
    (hasLLM : Bool) (env : SaveEnv) (now : Int) (mem : CallerMemory) (k : List Char)
    (f : Fact)
    (hget : env.getOutcome = Except.ok (some mem))
    (hsv : env.saveOutcome = Except.ok ())
    (hphone : ∃ p, pyOrStr pa sp = some p ∧ p ≠ [])
    (hf : findLastWithKey k mem.facts = some f)
    (hnew : k ∉ keysOf (saveNewFacts history hasLLM env))
    (hlen : (factMapOf mem.facts (saveNewFacts history hasLLM env)).length ≤ 15) :
    ∃ m, (saveModel true pa sp history hasLLM env now).snd = some m ∧
      m.facts = mergeFacts mem.facts (saveNewFacts history hasLLM env) ∧
      f ∈ m.facts := by
  obtain ⟨p, hp, hpne⟩ := hphone
  have hmemb : f ∈ mergeFacts mem.facts (saveNewFacts history hasLLM env) := by
    have hkE : k ∈ keysOf mem.facts := by
      by_contra hk
      rw [findLastWithKey_eq_none.2 hk] at hf
      exact Option.noConfusion hf
    have hkM : k ∈ keysOf (factMapOf mem.facts (saveNewFacts history hasLLM env)) :=
      keys_foldl_acc _ _ (keys_foldl_of_mem mem.facts [] hkE)
    obtain ⟨g, hgM, hgk⟩ := mem_keysOf.1 hkM
    rcases entry_foldl (saveNewFacts history hasLLM env) _ g hgM hgk with hlast | ⟨_, hgacc⟩
    · exact absurd hnew (by
        intro hcon
        rw [findLastWithKey_eq_none.2 hcon] at hlast
        exact Option.noConfusion hlast)
    · rcases entry_foldl mem.facts [] g hgacc hgk with h2 | ⟨_, habs⟩
      · have hgf : g = f := by
          rw [hf] at h2
          exact (Option.some.inj h2).symm
        have hlen2 : (sortFacts (factMapOf mem.facts (saveNewFacts history hasLLM env))).length
            ≤ 15 := by
          rw [(sortFacts_perm _).length_eq]
          exact hlen
        unfold mergeFacts
        rw [List.take_of_length_le hlen2]
        exact mem_sortFacts.2 (hgf ▸ hgM)
      · exact absurd habs (List.not_mem_nil g)
  rw [saveModel_eq]
  rw [hp]
  dsimp only
  rw [if_neg hpne, hget, hsv]
  exact ⟨_, rfl, rfl, hmemb⟩

/-- Witness for `c9_expired_facts_persist` at the concrete C9 environment. -/
theorem c9_expired_facts_persist_witness :
    (c9env.getOutcome = Except.ok (some c9mem) ∧
      c9env.saveOutcome = Except.ok () ∧
      (∃ p, pyOrStr (some (chars "p")) none = some p ∧ p ≠ []) ∧
      findLastWithKey (chars "old_key") c9mem.facts = some c9fact ∧
      (chars "old_key") ∉ keysOf (saveNewFacts [] false c9env) ∧
      (factMapOf c9mem.facts (saveNewFacts [] false c9env)).length ≤ 15) ∧
    ∃ m, (saveModel true (some (chars "p")) none [] false c9env c9now).snd = some m ∧
      m.facts = mergeFacts c9mem.facts (saveNewFacts [] false c9env) ∧
      c9fact ∈ m.facts :=
  ⟨⟨rfl, rfl, ⟨chars "p", rfl, by decide⟩, by decide, by decide, by decide⟩,
   c9_expired_facts_persist (some (chars "p")) none [] false c9env c9now c9mem
     (chars "old_key") c9fact rfl rfl ⟨chars "p", rfl, by decide⟩
     (by decide) (by decide) (by decide)⟩

/-! ## Lemmas about strings and the extractor loop -/

theorem mem_joinNL {c : Char} :
    ∀ {ls : List (List Char)} {l : List Char}, l ∈ ls → c ∈ l → c ∈ joinNL ls
  | [], _, h, _ => absurd h (List.not_mem_nil _)
  | [a], l, h, hc => by
    rcases List.mem_singleton.1 h with rfl
    simpa [joinNL] using hc
  | a :: b :: ls, l, h, hc => by
    show c ∈ a ++ '\n' :: joinNL (b :: ls)
    rcases List.mem_cons.1 h with rfl | h'
    · exact List.mem_append_left _ hc
    · exact List.mem_append_right _ (List.mem_cons_of_mem _ (mem_joinNL h' hc))

theorem pyStrip_ne_nil {l : List Char} {c : Char} (hc : c ∈ l)
    (hw : isPyWS c = false) : pyStrip l ≠ [] := by
  intro h
  unfold pyStrip at h
  rw [List.reverse_eq_nil_iff, List.dropWhile_eq_nil_iff] at h
  have hcd : c ∈ l.dropWhile isPyWS := by
    have hsplit : c ∈ l.takeWhile isPyWS ++ l.dropWhile isPyWS := by
      rw [List.takeWhile_append_dropWhile]
      exact hc
    rcases List.mem_append.1 hsplit with h1 | h2
    · exact absurd (List.mem_takeWhile_imp h1) (by simp [hw])
    · exact h2
  exact absurd (h c (List.mem_reverse.2 hcd)) (by simp [hw])

theorem extractLoop_all_fail (env : ExtractEnv)
    (hbad : ∀ n, ∃ s, env.llm n = some s ∧ s ≠ [] ∧ ∃ e, env.parse s = Except.error e) :
    ∀ (fuel attempt : Nat) (lastError : Option (List Char)) (count : Nat),
      (extractLoop env fuel attempt lastError count).2 = count + fuel ∧
      (extractLoop env fuel attempt lastError count).1.success = false
  | 0, _, _, count => ⟨by simp [extractLoop], by simp [extractLoop]⟩
  | fuel + 1, attempt, lastError, count => by
    obtain ⟨s, hs, hne, e, he⟩ := hbad attempt
    have ih := extractLoop_all_fail env hbad fuel (attempt + 1) (some e) (count + 1)
    unfold extractLoop
    rw [hs]
    dsimp only
    rw [if_neg hne, he]
    dsimp only
    exact ⟨by rw [ih.1]; omega, ih.2⟩

/-! ## Claim C4 -/

/-- C4: when some caller ("user") utterance carries non-empty (non-whitespace)
text and the model's response on every invocation is non-empty text that the
parsing pipeline rejects, `extract` invokes the model exactly `max_retries`
times and returns a result with `success = false`. -/
theorem c4_retries_exhausted (env : ExtractEnv) (maxRetries : Nat) (history : List Msg)
    (hmsg : ∃ m ∈ history, m.role = chars "user" ∧ pyStrip m.content ≠ [])
    (hbad : ∀ n, ∃ s, env.llm n = some s ∧ s ≠ [] ∧ ∃ e, env.parse s = Except.error e) :
    (extractModel env maxRetries history).2 = maxRetries ∧
    (extractModel env maxRetries history).1.success = false := by
  obtain ⟨m, hm, hrole, hstrip⟩ := hmsg
  have hne : history ≠ [] := List.ne_nil_of_mem hm
  have huser : hasUserContent history = true :=
    List.any_eq_true.2 ⟨m, hm, by
      rw [hrole]
      simp [hstrip]⟩
  have hcontent : m.content ≠ [] := fun hc => hstrip (by rw [hc]; rfl)
  have hline : (pyUpper m.role ++ chars ": " ++ m.content) ∈ (history.filterMap fun x =>
      if x.content = [] then none
      else some (pyUpper x.role ++ chars ": " ++ x.content)) :=
    List.mem_filterMap.2 ⟨m, hm, by rw [if_neg hcontent]⟩
  have hcolon : ':' ∈ pyUpper m.role ++ chars ": " ++ m.content :=
    List.mem_append_left _ (List.mem_append_right _ (by decide))
  have hfc : pyStrip (formatConversation history) ≠ [] :=
    pyStrip_ne_nil (mem_joinNL hline hcolon) (by decide)
  unfold extractModel
  rw [if_neg hne, huser, if_neg (by decide : ¬((!true) = true)), if_neg hfc]
  have hloop := extractLoop_all_fail env hbad maxRetries 1 none 0
  exact ⟨by rw [hloop.1]; omega, hloop.2⟩

/-- Witness for `c4_retries_exhausted` at a concrete input with
`max_retries = 10`. -/
theorem c4_retries_exhausted_witness :
    (∃ m ∈ c4hist, m.role = chars "user" ∧ pyStrip m.content ≠ []) ∧
    (∀ n, ∃ s, c4env.llm n = some s ∧ s ≠ [] ∧ ∃ e, c4env.parse s = Except.error e) ∧
    ((extractModel c4env 10 c4hist).2 = 10 ∧
      (extractModel c4env 10 c4hist).1.success = false) :=
  ⟨⟨⟨chars "user", chars "My name is Sam"⟩, by decide, by decide, by decide⟩,
   fun _ => ⟨chars "not json", rfl, by decide, chars "parse failure", rfl⟩,
   c4_retries_exhausted c4env 10 c4hist
     ⟨⟨chars "user", chars "My name is Sam"⟩, by decide, by decide, by decide⟩
     fun _ => ⟨chars "not json", rfl, by decide, chars "parse failure", rfl⟩⟩

/-! ## Claim C6 -/

/-- C6: when no "user"-role utterance carries non-empty (non-whitespace) text,
`extract` returns a successful result with no facts and performs zero model
invocations. -/
theorem c6_no_caller_text_skips (env : ExtractEnv) (maxRetries : Nat) (history : List Msg)
    (h : ∀ m ∈ history, m.role = chars "user" → pyStrip m.content = []) :
    extractModel env maxRetries history = (emptySuccess, 0) := by
  unfold extractModel
  by_cases hne : history = []
  · rw [if_pos hne]
  · rw [if_neg hne]
    have huser : hasUserContent history = false :=
      List.any_eq_false.2 fun m hm => by
        by_cases hrole : m.role = chars "user"
        · simp [hrole, h m hm hrole]
        · simp [hrole]
    rw [huser, if_pos (by decide : (!false) = true)]

/-- Witness for `c6_no_caller_text_skips` at a concrete input. -/
theorem c6_no_caller_text_skips_witness :
    (∀ m ∈ c6hist, m.role = chars "user" → pyStrip m.content = []) ∧
    extractModel c6env 10 c6hist = (emptySuccess, 0) :=
  ⟨by decide, c6_no_caller_text_skips c6env 10 c6hist (by decide)⟩

/-! ## Claim C8 -/

/-- C8, counterexample: a summary-bucket fact value longer than the configured
100-character limit is rendered into the formatted context in full — the
context contains the whole 101-character value and no ellipsis at all, so
over-long values are not truncated in every bucket. -/
theorem c8_counterexample :
    100 < c8val.length ∧
    containsSub c8val (formatMemory 10 (some c8mem) []).full_context = true ∧
    containsSub (chars "...") (formatMemory 10 (some c8mem) []).full_context = false := by
  decide

/-- C8, amended: the per-value ellipsis truncation applies only to the
OTHER KEY DETAILS bucket: an other-bucket line renders a value longer than 100
characters as its first 97 characters followed by `...`, while summary lines
and the bullet lines of the next-actions, personal-info and appointments
buckets always render the value in full. -/
theorem c8_truncation_only_other_bucket (f : Fact) (h : 100 < f.value.length) :
    otherLine f = chars "  • " ++ keyDisplay f.key ++ chars ": " ++
      (f.value.take 97 ++ chars "...") ∧
    summaryLine f = chars "  " ++ f.value ∧
    bulletLine f = chars "  • " ++ keyDisplay f.key ++ chars ": " ++ f.value := by
  refine ⟨?_, rfl, rfl⟩
  unfold otherLine truncateValue
  rw [if_pos h]

/-- Witness for `c8_truncation_only_other_bucket` at a concrete over-long
fact. -/
theorem c8_truncation_only_other_bucket_witness :
    100 < c8val.length ∧
    (otherLine ⟨chars "k", c8val, 5, 0, none⟩ =
        chars "  • " ++ keyDisplay (chars "k") ++ chars ": " ++
          (c8val.take 97 ++ chars "...") ∧
      summaryLine ⟨chars "k", c8val, 5, 0, none⟩ = chars "  " ++ c8val ∧
      bulletLine ⟨chars "k", c8val, 5, 0, none⟩ =
        chars "  • " ++ keyDisplay (chars "k") ++ chars ": " ++ c8val) :=
  ⟨by decide, c8_truncation_only_other_bucket ⟨chars "k", c8val, 5, 0, none⟩ (by decide)⟩

/-! ## Claim C10 -/

/-- C10: the phone-to-path sanitisation is not injective: `+15551234567` and
`15551234567` are distinct phone numbers mapping to the same file, as are
numbers differing only in spaces versus hyphens; a record saved under one is
returned by a `get` under the other. -/
theorem c10_path_not_injective :
    chars "+15551234567" ≠ chars "15551234567" ∧
    localFilePath (chars "Call_Memory") (chars "+15551234567") =
      localFilePath (chars "Call_Memory") (chars "15551234567") ∧
    chars "555 123 4567" ≠ chars "555-123-4567" ∧
    localFilePath (chars "Call_Memory") (chars "555 123 4567") =
      localFilePath (chars "Call_Memory") (chars "555-123-4567") ∧
    ∀ (fs : LocalFS) (m : CallerMemory),
      localGet (localSave fs (chars "Call_Memory") (chars "+15551234567") m)
        (chars "Call_Memory") (chars "15551234567") = some m := by
  refine ⟨by decide, by decide, by decide, by decide, ?_⟩
  intro fs m
  unfold localGet localSave fsRead
  have hpath : localFilePath (chars "Call_Memory") (chars "15551234567") =
      localFilePath (chars "Call_Memory") (chars "+15551234567") := by decide
  rw [hpath]
  simp [List.find?]

end Siphon
